import Mathlib

/-!
Verification development for the wound-analysis workflow repository
(response sectioning, workflow coordinator, provider clients, history
document builder).  Python strings are modelled as `List Char`; Python
dicts with string values as association lists with first-match lookup
and replace-or-append assignment, which matches Python dict semantics
for the dicts this code builds (unique keys, insertion order).
-/

abbrev Str := List Char

/-- Python single-quote character, kept out of string literals. -/
def chr39 : Char := Char.ofNat 39

/-- ASCII whitespace recognised by Python str.strip (the inputs modelled
here are ASCII; further unicode whitespace is irrelevant to them). -/
def isSpc (c : Char) : Bool :=
  c = ' ' || c = '\t' || c = '\n' || c = '\r' || c = '\x0b' || c = '\x0c'

/-- Python str.strip: drop leading and trailing whitespace. -/
def strip (s : Str) : Str :=
  ((s.dropWhile isSpc).reverse.dropWhile isSpc).reverse

/-- First-match lookup in an association list (Python dict access). -/
def dictGet : List (Str × Str) → Str → Option Str
  | [], _ => none
  | p :: rest, k => if p.1 = k then some p.2 else dictGet rest k

/-- Python `k in d` membership test. -/
def dictContains (d : List (Str × Str)) (k : Str) : Bool :=
  d.any (fun p => p.1 == k)

/-- Python dict assignment `d[k] = v`: replace in place, else append. -/
def dictSet : List (Str × Str) → Str → Str → List (Str × Str)
  | [], k, v => [(k, v)]
  | p :: rest, k, v => if p.1 = k then (k, v) :: rest else p :: dictSet rest k v

def dictKeys (d : List (Str × Str)) : List Str := d.map Prod.fst

/-! ### response_parser.py — AIResponseParser.parse_response_to_json -/

/-- The fixed section header names (response_parser.py, section_keys). -/
def sectionKeys : List Str :=
  [("Case Information").data, ("Clinical Observations").data,
   ("Treatment Plan").data, ("Recommended Products").data,
   ("Wound Tissue Evaluation").data, ("Wound Summary").data,
   ("Tissue Percentages Over Time").data]

def colonStarStar : Str := [':', '*', '*']

/-- The zero-width condition after group 2 of the regex
`\*\*(.*?):\*\*(.*?)(?=\*\*(?:H1|...|H7):|\Z)`: either end of input
(`\Z`) or one of the seven exact headers introduced by `**` and
followed by `:`. -/
def atDelimOrEnd (s : Str) : Bool :=
  s.isEmpty || sectionKeys.any (fun k => (('*' :: '*' :: k) ++ [':']).isPrefixOf s)

/-- Split a string at the first suffix satisfying `p`: returns the part
before that suffix and the suffix itself.  This models a lazy `(.*?)`
group followed by the material recognised by `p`. -/
def splitAtFirst (p : Str → Bool) : Str → Option (Str × Str)
  | [] => if p [] then some ([], []) else none
  | c :: cs =>
    if p (c :: cs) then some ([], c :: cs)
    else
      match splitAtFirst p cs with
      | some (a, b) => some (c :: a, b)
      | none => none

/-- One attempted match of the section regex at the current position:
`**`, then the lazy header group up to the first `:**`, then the lazy
content group up to the first recognised delimiter or end of input.
Returns (group1, group2, rest after the match).  The regex engine never
fails once `\*\*(.*?):\*\*` matches, because the `\Z` alternative of the
final condition always accepts the end of input. -/
def matchBold (s : Str) : Option (Str × Str × Str) :=
  if (['*', '*'] : Str).isPrefixOf s then
    match splitAtFirst (fun t => colonStarStar.isPrefixOf t) (s.drop 2) with
    | some (_g1t, t) =>
      match splitAtFirst atDelimOrEnd (t.drop 3) with
      | some (g2, rest) => some (_g1t, g2, rest)
      | none => none
    | none => none
  else none

/-- re.findall scan: try a match at each position, left to right,
resuming after the end of each match (matches are never empty here, the
shortest is `**:**`).  The fuel argument bounds the recursion by the
input length and never runs out on the calls made by
`findallSections`. -/
def scanFA : Nat → Str → List (Str × Str)
  | 0, _ => []
  | _ + 1, [] => []
  | fuel + 1, c :: cs =>
    match matchBold (c :: cs) with
    | some (g1, g2, rest) => (g1, g2) :: scanFA fuel rest
    | none => scanFA fuel cs

/-- `pattern.findall(ai_response)` for the section regex. -/
def findallSections (s : Str) : List (Str × Str) := scanFA s.length s

def errKey : Str := ("error").data

def parseFailedMsg : Str :=
  ("Parsing failed. AI response did not contain expected headers.").data

/-- The dict `{key: "" for key in section_keys}`. -/
def initDict : List (Str × Str) := sectionKeys.map (fun k => (k, ([] : Str)))

/-- The `for header, content in matches` loop of parse_response_to_json:
strip the header, and assign the stripped content when the stripped
header is a key of the dict. -/
def applyMatches : List (Str × Str) → List (Str × Str) → List (Str × Str)
  | d, [] => d
  | d, m :: ms =>
    let header := strip m.1
    applyMatches (if dictContains d header then dictSet d header (strip m.2) else d) ms

/-- response_parser.py, parse_response_to_json: run the findall scan; on
zero matches install the failure marker, otherwise fold the matches
over the all-empty dict. -/
def parse_response_to_json (ai_response : Str) : List (Str × Str) :=
  let found := findallSections ai_response
  if found.isEmpty then dictSet initDict errKey parseFailedMsg
  else applyMatches initDict found

/-- The content assigned to key `k` by the assignment loop if the match
list were processed alone: later matches overwrite earlier ones, so this
is the stripped content of the last match whose stripped header is `k`. -/
def lastContent (k : Str) : List (Str × Str) → Option Str
  | [] => none
  | m :: ms =>
    match lastContent k ms with
    | some v => some v
    | none => if strip m.1 == k then some (strip m.2) else none

/-! ### A minimal JSON value type

Provider follow-up calls return arbitrary nested JSON decoded by
json.loads; a small inductive covers every shape the code handles. -/

inductive JsonVal where
  | null : JsonVal
  | bool : Bool → JsonVal
  | str : Str → JsonVal
  | num : Int → JsonVal
  | arr : List JsonVal → JsonVal
  | obj : List (Str × JsonVal) → JsonVal

/-! ### data_formatter.py — ClinicalDataFormatter -/

/-- Python str.title on the alphabetic/space strings produced by
key.replace: uppercase a letter that follows a non-letter, lowercase the
rest. -/
def titleizeGo : Bool → Str → Str
  | _, [] => []
  | prevAlpha, c :: cs =>
    (if prevAlpha then c.toLower else c.toUpper) :: titleizeGo c.isAlpha cs

def titleize (s : Str) : Str := titleizeGo false s

/-- _collect_items: keep the keys whose flag is truthy, replace
underscores by spaces and title-case them.  The kwargs dict is modelled
by its truthiness function `source`. -/
def collect_items (source : Str → Bool) (keys : List Str) : List Str :=
  (keys.filter source).map (fun k => titleize (k.map (fun c => if c = '_' then ' ' else c)))

structure AssessmentData where
  timestamp : Str
  health_risk_factors : List Str
  mobility : List Str
  living_situation : List Str
  drainage_amount : List Str
  drainage_type : List Str
  odor_assessment : List Str
  peri_wound_skin_temperature : List Str
  other_relevant_information : Str

/-- format_assessment_data; `now` models datetime.now().isoformat(), and
`other_information` models kwargs.get("other_information", ""). -/
def format_assessment_data (now : Str) (flags : Str → Bool) (other_information : Str) :
    AssessmentData where
  timestamp := now
  health_risk_factors :=
    collect_items flags [("diabetes").data, ("peripheral_arterial_disease").data]
  mobility :=
    collect_items flags [("ambulatory").data, ("wheelchair_dependent").data, ("bedbound").data]
  living_situation :=
    collect_items flags [("alone").data, ("caregiver_support").data, ("facility").data]
  drainage_amount :=
    collect_items flags [("drainage_none").data, ("drainage_scant").data]
  drainage_type :=
    collect_items flags [("serous").data, ("sanguinous").data, ("purulent").data]
  odor_assessment :=
    collect_items flags [("odor_absent").data, ("odor_present").data, ("odor_foul").data]
  peri_wound_skin_temperature :=
    collect_items flags [("temperature_same").data, ("temperature_warmer_hot").data]
  other_relevant_information := other_information

/-! ### pdf_generator.py — create_healing_history_pdf -/

structure AssessmentRecord where
  image_path : Str
  assessment_date : Str
  analysis : List (Str × Str)

/-- One rendered page of the healing-history document: header line,
date, embedded image reference and the two excerpted analysis fields. -/
structure PdfPage where
  heading : Str
  assessment_date : Str
  image_path : Str
  clinical_observations : Str
  wound_tissue_evaluation : Str

/-- Python .encode("latin-1", "replace").decode("latin-1"): characters
beyond Latin-1 are replaced by a question mark. -/
def latin1_replace (s : Str) : Str := s.map (fun c => if c.toNat ≤ 255 then c else '?')

/-- Python dict .get with default. -/
def dictGetD (d : List (Str × Str)) (k dflt : Str) : Str := (dictGet d k).getD dflt

def natToStr (n : Nat) : Str := (Nat.repr n).data

/-- Python string comparison: lexicographic on code points.  This is the
key order used by sorted(..., key=lambda x: x["assessment_date"]). -/
def strLe : Str → Str → Bool
  | [], _ => true
  | _ :: _, [] => false
  | a :: as, b :: bs =>
    if a.toNat < b.toNat then true
    else if b.toNat < a.toNat then false
    else strLe as bs

def recLe (r1 r2 : AssessmentRecord) : Bool := strLe r1.assessment_date r2.assessment_date

/-- The body of the per-record page loop: page i (zero-based) of n. -/
def mkPage (n : Nat) (ir : Nat × AssessmentRecord) : PdfPage where
  heading := ("Assessment ").data ++ natToStr (ir.1 + 1) ++ (" of ").data ++ natToStr n
  assessment_date := ir.2.assessment_date
  image_path := ir.2.image_path
  clinical_observations :=
    latin1_replace (dictGetD ir.2.analysis ("Clinical Observations").data ("N/A").data)
  wound_tissue_evaluation :=
    latin1_replace (dictGetD ir.2.analysis ("Wound Tissue Evaluation").data ("N/A").data)

/-- create_healing_history_pdf: raise on empty history, otherwise sort
the records by assessment_date ascending (Python sorted is the stable
ascending sort, modelled by the stable List.mergeSort under recLe) and
render one page per record; returns the output path and the pages.
Directory creation and the best-effort image embedding are file-system
effects with no bearing on page content or order. -/
def create_healing_history_pdf (history_records : List AssessmentRecord) (patient_id : Str) :
    Except Str (Str × List PdfPage) :=
  if history_records.isEmpty then
    .error ("Cannot generate PDF from empty history.").data
  else
    let pdf_path := ("generated_pdfs/healing_history_").data ++ patient_id ++
      ('_' :: natToStr history_records.length) ++ ("_assessments.pdf").data
    let sorted_history := history_records.mergeSort recLe
    let pages := sorted_history.enum.map (mkPage sorted_history.length)
    .ok (pdf_path, pages)

/-! ### openai_client.py / gemini_client.py / grok_client.py

The network call itself is non-deterministic I/O; its outcome is passed
in as an `Except` value (error = the exception raised by
_make_api_call), and the code-fence stripping plus json.loads of the
response text is passed in as the `decodeJson` oracle.  Everything the
client computes locally (section extraction, instruction selection,
result dictionaries) is modelled exactly. -/

def tpDelim : Str := ("**Treatment Plan:**").data

def rpDelim : Str := ("**Recommended Products:**").data

/-- re.search(pre + lazy gap + post, s, DOTALL), returning group(1).
The leftmost match starts at the first occurrence of `pre`, and the lazy
group ends at the first occurrence of `post` after it.  If no `post`
follows the first `pre`, no later starting point can succeed either
(the post occurrences available to a later start are a subset), so the
whole search fails exactly when this one does. -/
def re_search_between (pre post s : Str) : Option Str :=
  match splitAtFirst (fun t => pre.isPrefixOf t) s with
  | none => none
  | some (_, b) =>
    match splitAtFirst (fun t => post.isPrefixOf t) (b.drop pre.length) with
    | none => none
    | some (g, _) => some g

structure ExpandPlanResult where
  success : Bool
  error : Option Str
  expanded_plan_json : Option JsonVal
  raw_response : Option Str

structure RevisedProductsResult where
  success : Bool
  error : Option Str
  revised_products_json : Option JsonVal
  raw_response : Option Str

structure HealingProgressResult where
  success : Bool
  error : Option Str
  healing_progress_json : Option JsonVal

def openaiExpandMissingMsg : Str :=
  ("Could not find ").data ++ chr39 :: ("Treatment Plan").data ++ chr39 ::
    (" in the original analysis to expand.").data

def geminiExpandMissingMsg : Str :=
  ("Could not find ").data ++ chr39 :: ("Treatment Plan").data ++ chr39 :: (" to expand.").data

def openaiExpandDecodeFailMsg : Str :=
  ("Failed to decode AI").data ++ chr39 :: ("s JSON response for the expanded plan.").data

def geminiExpandDecodeFailMsg : Str :=
  ("Failed to decode Gemini").data ++ chr39 :: ("s JSON response.").data

def openaiExpandExcMsg (e : Str) : Str := ("Error in OpenAI expand_treatment_plan: ").data ++ e

def geminiExpandExcMsg (e : Str) : Str := ("Error in Gemini expand_treatment_plan: ").data ++ e

/-- OpenAIClient.expand_treatment_plan with an instrumented count of
provider calls (second component: number of _make_api_call invocations). -/
def openai_expand_treatment_plan (original_analysis : Str)
    (apiResult : Except Str Str) (decodeJson : Str → Option JsonVal) :
    ExpandPlanResult × Nat :=
  match re_search_between tpDelim rpDelim original_analysis with
  | none => (⟨false, some openaiExpandMissingMsg, none, none⟩, 0)
  | some _treatment_section =>
    match apiResult with
    | .error e => (⟨false, some (openaiExpandExcMsg e), none, none⟩, 1)
    | .ok response_text =>
      match decodeJson response_text with
      | some j => (⟨true, none, some j, none⟩, 1)
      | none => (⟨false, some openaiExpandDecodeFailMsg, none, some response_text⟩, 1)

/-- GeminiClient.expand_treatment_plan, instrumented like the OpenAI one. -/
def gemini_expand_treatment_plan (original_analysis : Str)
    (apiResult : Except Str Str) (decodeJson : Str → Option JsonVal) :
    ExpandPlanResult × Nat :=
  match re_search_between tpDelim rpDelim original_analysis with
  | none => (⟨false, some geminiExpandMissingMsg, none, none⟩, 0)
  | some _treatment_section =>
    match apiResult with
    | .error e => (⟨false, some (geminiExpandExcMsg e), none, none⟩, 1)
    | .ok response_text =>
      match decodeJson response_text with
      | some j => (⟨true, none, some j, none⟩, 1)
      | none => (⟨false, some geminiExpandDecodeFailMsg, none, some response_text⟩, 1)

def pwtReason : Str := ("Patient Won").data ++ chr39 :: ("t Tolerate").data

/-- OpenAIClient.revise_products instruction selection: the dict literal
indexed with .get(revision_reason, default); any reason outside the four
listed keys yields the bare default string. -/
def openai_revision_instruction (revision_reason : Str) : Str :=
  if revision_reason = pwtReason then
    ("Focus on gentle, hypoallergenic products that are comfortable for sensitive patients.").data
  else if revision_reason = ("Too Costly").data then
    ("Recommend cost-effective, generic alternatives and basic wound care supplies.").data
  else if revision_reason = ("Products Unavailable").data then
    ("Suggest readily available alternatives that can be found in most pharmacies.").data
  else if revision_reason = ("Other").data then
    ("Provide alternative product recommendations with different mechanisms of action.").data
  else ("Provide alternative product recommendations.").data

/-- GrokClient.revise_products instruction selection: same dict literal
and default as the OpenAI client. -/
def grok_revision_instruction (revision_reason : Str) : Str :=
  if revision_reason = pwtReason then
    ("Focus on gentle, hypoallergenic products that are comfortable for sensitive patients.").data
  else if revision_reason = ("Too Costly").data then
    ("Recommend cost-effective, generic alternatives and basic wound care supplies.").data
  else if revision_reason = ("Products Unavailable").data then
    ("Suggest readily available alternatives that can be found in most pharmacies.").data
  else if revision_reason = ("Other").data then
    ("Provide alternative product recommendations with different mechanisms of action.").data
  else ("Provide alternative product recommendations.").data

/-- GeminiClient.revise_products instruction selection: if/elif chain
whose final else covers both the Other reason and any unexpected value. -/
def gemini_revision_instruction (revision_reason : Str) : Str :=
  if revision_reason = pwtReason then
    ("Focus on gentle, hypoallergenic products that are comfortable for sensitive patients. Avoid aggressive treatments and prioritize patient comfort.").data
  else if revision_reason = ("Too Costly").data then
    ("Recommend cost-effective, generic alternatives and basic wound care supplies. Focus on essential products only and suggest budget-friendly options.").data
  else if revision_reason = ("Products Unavailable").data then
    ("Suggest readily available alternatives that can be found in most pharmacies or medical supply stores. Include multiple product options.").data
  else
    ("Provide alternative product recommendations with different mechanisms of action or formulations.").data

/-! ### main.py — NurseLensFacade -/

structure FacadeState where
  last_analysis : Option Str
  last_assessment_data : Option AssessmentData

structure AnalyzeResponse where
  success : Bool
  timestamp : Option Str
  model_used : Option Str
  assessment_data : Option AssessmentData
  json_response : Option (List (Str × Str))
  error : Option Str

def workflowError (e : Str) : Str := ("Workflow error: ").data ++ e

/-- NurseLensFacade.analyze_wound_with_image.  The two fallible steps
inside the try block — encode_image (file I/O) and get_initial_analysis
(the provider call) — are passed in as Except outcomes; the formatter
and the response parser are pure and never raise.  Returns the new
facade state (self.last_analysis, self.last_assessment_data) and the
result dictionary. -/
def analyze_wound_with_image (model now : Str) (_st : FacadeState) (flags : Str → Bool)
    (other_information : Str) (encode_image : Except Str Str)
    (get_initial_analysis : Except Str Str) : FacadeState × AnalyzeResponse :=
  let assessment_data := format_assessment_data now flags other_information
  match encode_image with
  | .error e => (⟨none, none⟩, ⟨false, none, none, none, none, some (workflowError e)⟩)
  | .ok _base64_image =>
    match get_initial_analysis with
    | .error e => (⟨none, none⟩, ⟨false, none, none, none, none, some (workflowError e)⟩)
    | .ok complete_ai_analysis =>
      (⟨some complete_ai_analysis, some assessment_data⟩,
        ⟨true, some now, some model, some assessment_data,
          some (parse_response_to_json complete_ai_analysis), none⟩)

structure FollowUpResponse where
  success : Bool
  timestamp : Option Str
  model_used : Option Str
  json_response : Option JsonVal
  error : Option Str
  raw_response : Option Str

/-- Python truthiness of the Optional[str] cache slot:
`not self.last_analysis` is true for None and for the empty string. -/
def isFalsy : Option Str → Bool
  | none => true
  | some s => s.isEmpty

def mustAnalyzeFirstMsg : Str :=
  ("You must run ").data ++ chr39 :: ("analyze_wound_with_image").data ++ chr39 ::
    (" first.").data

/-- NurseLensFacade.expand_last_treatment_plan, instrumented with the
number of client.expand_treatment_plan invocations; `clientResult` is
the dictionary that call would return. -/
def expand_last_treatment_plan (model now : Str) (st : FacadeState)
    (clientResult : ExpandPlanResult) : FollowUpResponse × Nat :=
  if isFalsy st.last_analysis then
    (⟨false, none, none, none, some mustAnalyzeFirstMsg, none⟩, 0)
  else if clientResult.success = false then
    (⟨false, none, none, none, clientResult.error, clientResult.raw_response⟩, 1)
  else
    (⟨true, some now, some model, clientResult.expanded_plan_json, none, none⟩, 1)

def invalidReasonMsg : Str := ("Invalid revision reason.").data

def validReasons : List Str :=
  [pwtReason, ("Too Costly").data, ("Products Unavailable").data, ("Other").data]

/-- NurseLensFacade.revise_last_products, instrumented like
expand_last_treatment_plan. -/
def revise_last_products (model now : Str) (st : FacadeState) (revision_reason : Str)
    (clientResult : RevisedProductsResult) : FollowUpResponse × Nat :=
  if isFalsy st.last_analysis then
    (⟨false, none, none, none, some mustAnalyzeFirstMsg, none⟩, 0)
  else if revision_reason ∈ validReasons then
    (if clientResult.success = false then
      (⟨false, none, none, none, clientResult.error, clientResult.raw_response⟩, 1)
    else
      (⟨true, some now, some model, clientResult.revised_products_json, none, none⟩, 1))
  else (⟨false, none, none, none, some invalidReasonMsg, none⟩, 0)

structure ProgressResponse where
  success : Bool
  timestamp : Option Str
  model_used : Option Str
  pdf_path : Option (Option Str)
  json_response : Option JsonVal
  error : Option Str

def healingWorkflowFailedMsg (e : Str) : Str :=
  ("Healing progress workflow failed: ").data ++ e

def healing_progress_percentage_key : Str := ("healing_progress_percentage").data

/-- NurseLensFacade.calculate_healing_progress.  In ProgressResponse an
outer `none` means the key is absent from the returned dictionary, and
`some none` means the pdf_path key is present with value None.  The two
counters record how many times create_healing_history_pdf and
client.get_healing_progress run; `pdfResult` is the outcome of the
document build (error = the exception it raised) and `clientResult` the
dictionary the provider-client call would return (the clients catch
their own exceptions and always return a dictionary). -/
def calculate_healing_progress (model now _patient_id : Str)
    (history_records : List AssessmentRecord)
    (pdfResult : Except Str Str) (clientResult : HealingProgressResult) :
    ProgressResponse × Nat × Nat :=
  if history_records.length < 2 then
    (⟨true, some now, some model, some none,
      some (JsonVal.obj [(healing_progress_percentage_key, JsonVal.num 0)]), none⟩, 0, 0)
  else
    match pdfResult with
    | .error e =>
      (⟨false, some now, some model, none, none, some (healingWorkflowFailedMsg e)⟩, 1, 0)
    | .ok pdf_path =>
      if clientResult.success = false then
        (⟨false, none, none, none, none, clientResult.error⟩, 1, 1)
      else
        (⟨true, some now, some model, some (some pdf_path),
          clientResult.healing_progress_json, none⟩, 1, 1)

/-- Substring test, used to state that a text contains none of the
seven section names. -/
def hasSubstr : Str → Str → Bool
  | [], sub => sub.isEmpty
  | c :: cs, sub => sub.isPrefixOf (c :: cs) || hasSubstr cs sub

/-- A concrete well-formed seven-section text used as witness input:
every key paired with a small body. -/
def c1ExampleSections : List (Str × Str) :=
  sectionKeys.zip
    [(" A1 ").data, ("B2").data, ("C3").data, ("D4").data, ("E5").data, ("F6").data, (" ").data]

/-! ### Lemmas about the regex scan -/

theorem splitAtFirst_split (p : Str → Bool) :
    ∀ s a b, splitAtFirst p s = some (a, b) → s = a ++ b := by
  intro s
  induction s with
  | nil =>
    intro a b h
    by_cases hp : p []
    · simp [splitAtFirst, hp] at h
      rcases h with ⟨h1, h2⟩
      subst h1; subst h2; rfl
    · simp [splitAtFirst, hp] at h
  | cons c cs ih =>
    intro a b h
    by_cases hp : p (c :: cs)
    · simp [splitAtFirst, hp] at h
      rcases h with ⟨h1, h2⟩
      subst h1; subst h2; rfl
    · simp only [splitAtFirst, hp, Bool.false_eq_true, if_false] at h
      cases hsub : splitAtFirst p cs with
      | none => rw [hsub] at h; exact absurd h (by simp)
      | some pr =>
        rw [hsub] at h
        simp at h
        rcases h with ⟨h1, h2⟩
        have := ih pr.1 pr.2 (by rw [hsub])
        subst h1; subst h2
        simp [this]

theorem splitAtFirst_holds (p : Str → Bool) :
    ∀ s a b, splitAtFirst p s = some (a, b) → p b = true := by
  intro s
  induction s with
  | nil =>
    intro a b h
    by_cases hp : p []
    · simp [splitAtFirst, hp] at h
      rcases h with ⟨h1, h2⟩
      subst h2; exact hp
    · simp [splitAtFirst, hp] at h
  | cons c cs ih =>
    intro a b h
    by_cases hp : p (c :: cs)
    · simp [splitAtFirst, hp] at h
      rcases h with ⟨h1, h2⟩
      subst h2; exact hp
    · simp only [splitAtFirst, hp, Bool.false_eq_true, if_false] at h
      cases hsub : splitAtFirst p cs with
      | none => rw [hsub] at h; exact absurd h (by simp)
      | some pr =>
        rw [hsub] at h
        simp at h
        rcases h with ⟨_, h2⟩
        subst h2
        exact ih pr.1 pr.2 (by rw [hsub])

theorem splitAtFirst_complete (p : Str → Bool) :
    ∀ a b, p b = true → (∀ i, i < a.length → p (a.drop i ++ b) = false) →
      splitAtFirst p (a ++ b) = some (a, b) := by
  intro a
  induction a with
  | nil =>
    intro b hb _
    cases b with
    | nil => simp [splitAtFirst, hb]
    | cons c cs => simp [splitAtFirst, hb]
  | cons x xs ih =>
    intro b hb hint
    have h0 : p (x :: (xs ++ b)) = false := by
      have := hint 0 (by simp)
      simpa using this
    have hrec := ih b hb (fun i hi => by
      have := hint (i + 1) (by simp; omega)
      simpa using this)
    simp only [List.cons_append, splitAtFirst, List.append_eq, h0, Bool.false_eq_true, if_false]
    simp only [List.append_eq] at hrec
    rw [hrec]

theorem scanFA_nil : ∀ fuel, scanFA fuel [] = [] := by
  intro fuel; cases fuel <;> rfl

theorem matchBold_rest_lt (s g1 g2 rest : Str)
    (h : matchBold s = some (g1, g2, rest)) : rest.length + 5 ≤ s.length := by
  unfold matchBold at h
  split at h
  · rename_i hpre
    split at h
    · rename_i a1 b1 e1
      split at h
      · rename_i g2x restx e2
        simp only [Option.some.injEq, Prod.mk.injEq] at h
        obtain ⟨ha, hg, hr⟩ := h
        subst ha; subst hg; subst hr
        have s1 := splitAtFirst_split _ _ _ _ e1
        have s2 := splitAtFirst_split _ _ _ _ e2
        have c1 := splitAtFirst_holds _ _ _ _ e1
        have hb1 : colonStarStar <+: b1 := by
          rw [← List.isPrefixOf_iff_prefix]; exact c1
        have hlen1 : 3 ≤ b1.length := by
          have := hb1.length_le; simpa [colonStarStar] using this
        have hs2 : 2 ≤ s.length := by
          have hps : (['*', '*'] : Str) <+: s := by
            rw [← List.isPrefixOf_iff_prefix]; exact hpre
          simpa using hps.length_le
        have l1 := congrArg List.length s1
        have l2 := congrArg List.length s2
        simp [List.length_drop] at l1 l2
        omega
      · exact absurd h (by simp)
    · exact absurd h (by simp)
  · exact absurd h (by simp)

theorem scanFA_fuel (f1 : Nat) :
    ∀ (f2 : Nat) (s : Str), s.length ≤ f1 → s.length ≤ f2 → scanFA f1 s = scanFA f2 s := by
  induction f1 with
  | zero =>
    intro f2 s h1 _
    have : s = [] := List.length_eq_zero.mp (Nat.le_zero.mp h1)
    subst this
    rw [scanFA_nil, scanFA_nil]
  | succ k ih =>
    intro f2 s h1 h2
    cases s with
    | nil => rw [scanFA_nil, scanFA_nil]
    | cons c cs =>
      cases f2 with
      | zero => simp at h2
      | succ m =>
        show scanFA (k + 1) (c :: cs) = scanFA (m + 1) (c :: cs)
        simp only [scanFA]
        cases hm : matchBold (c :: cs) with
        | none =>
          exact ih m cs (by simp at h1; omega) (by simp at h2; omega)
        | some tr =>
          obtain ⟨ga, gb, rest⟩ := tr
          have hlt := matchBold_rest_lt _ _ _ _ hm
          show (ga, gb) :: scanFA k rest = (ga, gb) :: scanFA m rest
          rw [ih m rest (by simp at h1 hlt ⊢; omega) (by simp at h2 hlt ⊢; omega)]

theorem findallSections_eq_scanFA (s : Str) (fuel : Nat) (h : s.length ≤ fuel) :
    findallSections s = scanFA fuel s :=
  scanFA_fuel s.length fuel s le_rfl h

/-! ### Behaviour of the scan on canonical section texts -/

/-- A text assembled from header/body sections, each section rendered as
the bold header followed by its body. -/
def mkText : List (Str × Str) → Str
  | [] => []
  | (k, b) :: rest => '*' :: '*' :: (k ++ (':' :: '*' :: '*' :: (b ++ mkText rest)))

theorem prefixHead_ne (y x : Char) (ys xs : Str) (hx : x ≠ y) :
    (y :: ys).isPrefixOf (x :: xs) = false := by
  show (y == x && List.isPrefixOf ys xs) = false
  have hne : (y == x) = false := beq_eq_false_iff_ne.mpr (fun h => hx h.symm)
  simp [hne]

theorem colP_cons_ne (x : Char) (xs : Str) (hx : x ≠ ':') :
    colonStarStar.isPrefixOf (x :: xs) = false :=
  prefixHead_ne ':' x ['*', '*'] xs hx

theorem atDelimOrEnd_cons_ne (x : Char) (xs : Str) (hx : x ≠ '*') :
    atDelimOrEnd (x :: xs) = false := by
  show (false || sectionKeys.any fun k => (('*' :: '*' :: k) ++ [':']).isPrefixOf (x :: xs)) = false
  rw [Bool.false_or, List.any_eq_false]
  intro k _
  rw [show (('*' :: '*' :: k) ++ [':'] : Str) = '*' :: (('*' :: k) ++ [':']) from rfl]
  simp [prefixHead_ne '*' x (('*' :: k) ++ [':']) xs hx]
  exact fun h => absurd h.symm hx

theorem sectionKeys_chars :
    ∀ k ∈ sectionKeys, (':' : Char) ∉ k ∧ ('*' : Char) ∉ k := by decide

theorem atDelimOrEnd_mkText (sections : List (Str × Str))
    (h : ∀ p ∈ sections, p.1 ∈ sectionKeys) : atDelimOrEnd (mkText sections) = true := by
  cases sections with
  | nil => rfl
  | cons q rest =>
    obtain ⟨k, b⟩ := q
    have hk : k ∈ sectionKeys := h (k, b) (by simp)
    simp only [mkText, atDelimOrEnd, Bool.or_eq_true, List.any_eq_true]
    right
    refine ⟨k, hk, ?_⟩
    rw [ List.isPrefixOf_iff_prefix]
    exact ⟨'*' :: '*' :: (b ++ mkText rest), by simp⟩

theorem matchBold_canonical (k b T : Str)
    (hk1 : (':' : Char) ∉ k) (hb : ('*' : Char) ∉ b)
    (hT : atDelimOrEnd T = true) :
    matchBold ('*' :: '*' :: (k ++ (':' :: '*' :: '*' :: (b ++ T)))) =
      some (k, b, T) := by
  have h1 : splitAtFirst (fun t => colonStarStar.isPrefixOf t)
      (k ++ (':' :: '*' :: '*' :: (b ++ T))) = some (k, ':' :: '*' :: '*' :: (b ++ T)) := by
    apply splitAtFirst_complete
    · simp [colonStarStar, List.isPrefixOf]
    · intro i hi
      rw [List.drop_eq_getElem_cons hi, List.cons_append]
      exact colP_cons_ne _ _ (fun hc => hk1 (hc ▸ List.getElem_mem hi))
  have h2 : splitAtFirst atDelimOrEnd (b ++ T) = some (b, T) := by
    apply splitAtFirst_complete _ _ _ hT
    intro i hi
    rw [List.drop_eq_getElem_cons hi, List.cons_append]
    exact atDelimOrEnd_cons_ne _ _ (fun hc => hb (hc ▸ List.getElem_mem hi))
  unfold matchBold
  rw [if_pos (by simp [List.isPrefixOf])]
  have hdrop : (('*' : Char) :: '*' :: (k ++ (':' :: '*' :: '*' :: (b ++ T)))).drop 2 =
      k ++ (':' :: '*' :: '*' :: (b ++ T)) := rfl
  rw [hdrop, h1]
  show (match splitAtFirst atDelimOrEnd ((':' :: '*' :: '*' :: (b ++ T)).drop 3) with
    | some (g2, rest) => some (k, g2, rest)
    | none => none) = some (k, b, T)
  have hdrop3 : ((':' : Char) :: '*' :: '*' :: (b ++ T)).drop 3 = b ++ T := rfl
  rw [hdrop3, h2]

theorem scanFA_mkText :
    ∀ (sections : List (Str × Str)) (fuel : Nat), (mkText sections).length ≤ fuel →
      (∀ p ∈ sections, p.1 ∈ sectionKeys) → (∀ p ∈ sections, ('*' : Char) ∉ p.2) →
      scanFA fuel (mkText sections) = sections := by
  intro sections
  induction sections with
  | nil => intro fuel _ _ _; exact scanFA_nil fuel
  | cons q rest ih =>
    intro fuel hfuel hkeys hbodies
    obtain ⟨k, b⟩ := q
    have hk : k ∈ sectionKeys := hkeys (k, b) (by simp)
    have hkc := sectionKeys_chars k hk
    have hbc : ('*' : Char) ∉ b := hbodies (k, b) (by simp)
    have hmatch := matchBold_canonical k b (mkText rest) hkc.1 hbc
      (atDelimOrEnd_mkText rest (fun p hp => hkeys p (by simp [hp])))
    have hlen : (mkText ((k, b) :: rest)).length =
        k.length + b.length + (mkText rest).length + 5 := by
      simp [mkText]; omega
    cases fuel with
    | zero => rw [hlen] at hfuel; omega
    | succ f =>
      show scanFA (f + 1) (mkText ((k, b) :: rest)) = (k, b) :: rest
      simp only [mkText, scanFA, hmatch]
      rw [ih f (by rw [hlen] at hfuel; omega)
        (fun p hp => hkeys p (by simp [hp]))
        (fun p hp => hbodies p (by simp [hp]))]

theorem findallSections_mkText (sections : List (Str × Str))
    (h1 : ∀ p ∈ sections, p.1 ∈ sectionKeys)
    (h2 : ∀ p ∈ sections, ('*' : Char) ∉ p.2) :
    findallSections (mkText sections) = sections :=
  scanFA_mkText sections (mkText sections).length le_rfl h1 h2

/-! ### Dictionary and assignment-loop lemmas -/

theorem dictGet_dictSet_self (d : List (Str × Str)) (k v : Str) :
    dictGet (dictSet d k v) k = some v := by
  induction d with
  | nil => simp [dictSet, dictGet]
  | cons p rest ih =>
    by_cases hp : p.1 = k
    · simp [dictSet, hp, dictGet]
    · simp [dictSet, hp, dictGet, ih]

theorem dictGet_dictSet_other (d : List (Str × Str)) (k k2 v : Str) (h : k2 ≠ k) :
    dictGet (dictSet d k2 v) k = dictGet d k := by
  induction d with
  | nil => simp [dictSet, dictGet, h]
  | cons p rest ih =>
    by_cases hp : p.1 = k2
    · simp [dictSet, hp, dictGet, h]
    · simp [dictSet, hp, dictGet, ih]

theorem dictContains_iff_mem (d : List (Str × Str)) (k : Str) :
    dictContains d k = true ↔ k ∈ dictKeys d := by
  induction d with
  | nil => simp [dictContains, dictKeys]
  | cons p rest ih =>
    show (p.1 == k || dictContains rest k) = true ↔ k ∈ p.1 :: dictKeys rest
    rw [Bool.or_eq_true, beq_iff_eq, ih, List.mem_cons]
    constructor
    · rintro (h | h)
      · exact Or.inl h.symm
      · exact Or.inr h
    · rintro (h | h)
      · exact Or.inl h.symm
      · exact Or.inr h

theorem dictKeys_dictSet_of_contains (d : List (Str × Str)) (k v : Str)
    (h : dictContains d k = true) : dictKeys (dictSet d k v) = dictKeys d := by
  induction d with
  | nil => simp [dictContains] at h
  | cons p rest ih =>
    simp only [dictSet]
    by_cases hp : p.1 = k
    · rw [if_pos hp]
      show k :: dictKeys rest = p.1 :: dictKeys rest
      rw [hp]
    · rw [if_neg hp]
      have h2 : dictContains rest k = true := by
        have hh : (p.1 == k || dictContains rest k) = true := h
        rw [Bool.or_eq_true] at hh
        rcases hh with h1 | h1
        · exact absurd (beq_iff_eq.mp h1) hp
        · exact h1
      show p.1 :: dictKeys (dictSet rest k v) = p.1 :: dictKeys rest
      rw [ih h2]

theorem mem_keys_dictSet_self (d : List (Str × Str)) (k v : Str) :
    k ∈ dictKeys (dictSet d k v) := by
  induction d with
  | nil => simp [dictSet, dictKeys]
  | cons p rest ih =>
    simp only [dictSet]
    by_cases hp : p.1 = k
    · rw [if_pos hp]
      exact List.mem_cons_self k (dictKeys rest)
    · rw [if_neg hp]
      exact List.mem_cons.mpr (Or.inr ih)

theorem mem_keys_dictSet (d : List (Str × Str)) (k2 v k : Str) (h : k ∈ dictKeys d) :
    k ∈ dictKeys (dictSet d k2 v) := by
  induction d with
  | nil => simp [dictKeys] at h
  | cons p rest ih =>
    simp only [dictSet]
    by_cases hp : p.1 = k2
    · rw [if_pos hp]
      rcases List.mem_cons.mp h with h1 | h1
      · exact List.mem_cons.mpr (Or.inl (by rw [h1, hp]))
      · exact List.mem_cons.mpr (Or.inr h1)
    · rw [if_neg hp]
      rcases List.mem_cons.mp h with h1 | h1
      · exact List.mem_cons.mpr (Or.inl h1)
      · exact List.mem_cons.mpr (Or.inr (ih h1))

theorem dictContains_dictSet_mono (d : List (Str × Str)) (k k2 v : Str)
    (h : dictContains d k = true) : dictContains (dictSet d k2 v) k = true := by
  rw [dictContains_iff_mem] at h ⊢
  exact mem_keys_dictSet d k2 v k h

theorem applyMatches_keys (ms : List (Str × Str)) :
    ∀ d, dictKeys (applyMatches d ms) = dictKeys d := by
  induction ms with
  | nil => intro d; rfl
  | cons m rest ih =>
    intro d
    show dictKeys (applyMatches
      (if dictContains d (strip m.1) then dictSet d (strip m.1) (strip m.2) else d) rest) =
      dictKeys d
    by_cases hc : dictContains d (strip m.1) = true
    · rw [if_pos hc, ih, dictKeys_dictSet_of_contains _ _ _ hc]
    · rw [if_neg hc, ih]

theorem applyMatches_get (ms : List (Str × Str)) :
    ∀ (d : List (Str × Str)) (k : Str), dictContains d k = true →
      dictGet (applyMatches d ms) k =
        match lastContent k ms with
        | some v => some v
        | none => dictGet d k := by
  induction ms with
  | nil => intro d k _; rfl
  | cons m rest ih =>
    intro d k hk
    show dictGet (applyMatches
        (if dictContains d (strip m.1) then dictSet d (strip m.1) (strip m.2) else d) rest) k =
      match lastContent k (m :: rest) with
      | some v => some v
      | none => dictGet d k
    by_cases hm : strip m.1 = k
    · have hguard : dictContains d (strip m.1) = true := by rw [hm]; exact hk
      rw [if_pos hguard, hm]
      rw [ih (dictSet d k (strip m.2)) k (dictContains_dictSet_mono d k k _ hk)]
      show _ = match lastContent k (m :: rest) with
        | some v => some v
        | none => dictGet d k
      have hbeq : (strip m.1 == k) = true := beq_iff_eq.mpr hm
      simp only [lastContent, hbeq, if_true]
      cases lastContent k rest with
      | some v => rfl
      | none => simp [dictGet_dictSet_self]
    · have hbeq : (strip m.1 == k) = false := beq_eq_false_iff_ne.mpr hm
      have hget : dictGet (if dictContains d (strip m.1) then
          dictSet d (strip m.1) (strip m.2) else d) k = dictGet d k := by
        by_cases hc : dictContains d (strip m.1) = true
        · rw [if_pos hc, dictGet_dictSet_other _ _ _ _ hm]
        · rw [if_neg hc]
      have hcont : dictContains (if dictContains d (strip m.1) then
          dictSet d (strip m.1) (strip m.2) else d) k = true := by
        by_cases hc : dictContains d (strip m.1) = true
        · rw [if_pos hc]; exact dictContains_dictSet_mono d k _ _ hk
        · rw [if_neg hc]; exact hk
      rw [ih _ k hcont, hget]
      simp only [lastContent, hbeq]
      cases lastContent k rest with
      | some v => rfl
      | none => rfl

/-! ### Parser helper lemmas and decidable facts -/

theorem parse_eq_marker (s : Str) (h : findallSections s = []) :
    parse_response_to_json s = dictSet initDict errKey parseFailedMsg := by
  unfold parse_response_to_json
  rw [h]
  rfl

theorem parse_eq_fold (s : Str) (h : findallSections s ≠ []) :
    parse_response_to_json s = applyMatches initDict (findallSections s) := by
  unfold parse_response_to_json
  cases hf : findallSections s with
  | nil => exact absurd hf h
  | cons a l => rfl

theorem dictGet_eq_none_of_not_mem (d : List (Str × Str)) (k : Str) (h : k ∉ dictKeys d) :
    dictGet d k = none := by
  induction d with
  | nil => rfl
  | cons p rest ih =>
    have h1 : p.1 ≠ k := fun he => h (List.mem_cons.mpr (Or.inl he.symm))
    simp only [dictGet, h1, if_false]
    exact ih (fun hm => h (List.mem_cons.mpr (Or.inr hm)))

theorem strip_sectionKey : ∀ k ∈ sectionKeys, strip k = k := by decide

theorem sectionKeys_nodup : sectionKeys.Nodup := by decide

theorem dictContains_initDict : ∀ k ∈ sectionKeys, dictContains initDict k = true := by decide

theorem dictKeys_initDict : dictKeys initDict = sectionKeys := by decide

theorem lastContent_eq_none (k : Str) :
    ∀ ms : List (Str × Str), (∀ m ∈ ms, strip m.1 ≠ k) → lastContent k ms = none := by
  intro ms
  induction ms with
  | nil => intro _; rfl
  | cons m rest ih =>
    intro h
    have hbeq : (strip m.1 == k) = false := beq_eq_false_iff_ne.mpr (h m (by simp))
    simp [lastContent, ih (fun q hq => h q (by simp [hq])), hbeq]

theorem lastContent_of_unique :
    ∀ (sections : List (Str × Str)) (k b : Str), (k, b) ∈ sections →
      (sections.map Prod.fst).Nodup → (∀ q ∈ sections, strip q.1 = q.1) →
      lastContent k sections = some (strip b) := by
  intro sections
  induction sections with
  | nil => intro k b h _ _; simp at h
  | cons q rest ih =>
    intro k b hmem hnd hstr
    rcases List.mem_cons.mp hmem with h1 | h1
    · have hq : q.1 = k := by rw [← h1]
      have hnotin : ∀ m ∈ rest, strip m.1 ≠ k := by
        intro m hm
        rw [hstr m (by simp [hm])]
        have hnin : q.1 ∉ rest.map Prod.fst := (List.nodup_cons.mp hnd).1
        intro he
        apply hnin
        rw [hq, ← he]
        exact List.mem_map_of_mem Prod.fst hm
      have hrest := lastContent_eq_none k rest hnotin
      have hbeq : (strip q.1 == k) = true := by
        rw [hstr q (by simp), hq]
        exact beq_self_eq_true k
      simp [lastContent, hrest, hbeq]
      rw [← h1]
    · have hrest := ih k b h1 (List.nodup_cons.mp hnd).2 (fun m hm => hstr m (by simp [hm]))
      simp [lastContent, hrest]

theorem mem_dropWhile_isSpc (c : Char) (h : isSpc c = false) :
    ∀ s : Str, c ∈ s → c ∈ s.dropWhile isSpc := by
  intro s
  induction s with
  | nil => intro hc; simp at hc
  | cons x xs ih =>
    intro hc
    by_cases hx : isSpc x = true
    · simp only [List.dropWhile_cons, hx, if_true]
      rcases List.mem_cons.mp hc with h1 | h1
      · rw [h1, hx] at h
        exact absurd h (by simp)
      · exact ih h1
    · simp only [List.dropWhile_cons, hx]
      simp at hx
      simp [hx]
      exact List.mem_cons.mp hc

theorem strip_ne_nil (s : Str) (c : Char) (hc : c ∈ s) (hns : isSpc c = false) :
    strip s ≠ [] := by
  intro h
  have h1 := mem_dropWhile_isSpc c hns s hc
  have h2 : c ∈ (s.dropWhile isSpc).reverse := List.mem_reverse.mpr h1
  have h3 := mem_dropWhile_isSpc c hns _ h2
  have h4 : c ∈ ((s.dropWhile isSpc).reverse.dropWhile isSpc).reverse := List.mem_reverse.mpr h3
  have h5 : c ∈ strip s := h4
  rw [h] at h5
  simp at h5

/-! ### Claims about the response sectioner -/

/-- C1: for every well-formed raw text assembled from the seven expected
bold headers, in any order, each immediately in the form header-colon
inside double asterisks and followed by a body free of asterisks, the
parser returns a mapping whose key set is exactly the seven section
names (no failure marker), where each key holds the input substring
delimited by its header and the next recognised header or end of text,
trimmed of surrounding whitespace, and non-empty whenever the delimited
region contains a non-whitespace character. -/
theorem c1_sectionize_wellformed (sections : List (Str × Str))
    (hperm : List.Perm (sections.map Prod.fst) sectionKeys)
    (hbodies : ∀ p ∈ sections, ('*' : Char) ∉ p.2) :
    dictKeys (parse_response_to_json (mkText sections)) = sectionKeys ∧
    dictGet (parse_response_to_json (mkText sections)) errKey = none ∧
    ∀ p ∈ sections,
      dictGet (parse_response_to_json (mkText sections)) p.1 = some (strip p.2) ∧
      (∀ c ∈ p.2, isSpc c = false → strip p.2 ≠ []) := by
  have hkeys : ∀ p ∈ sections, p.1 ∈ sectionKeys := by
    intro p hp
    exact hperm.mem_iff.mp (List.mem_map_of_mem Prod.fst hp)
  have hfind := findallSections_mkText sections hkeys hbodies
  have hne : findallSections (mkText sections) ≠ [] := by
    rw [hfind]
    intro h
    rw [h] at hperm
    have := hperm.length_eq
    simp [sectionKeys] at this
  have hparse : parse_response_to_json (mkText sections) = applyMatches initDict sections := by
    rw [parse_eq_fold _ hne, hfind]
  rw [hparse]
  refine ⟨?_, ?_, ?_⟩
  · rw [applyMatches_keys]
    exact dictKeys_initDict
  · apply dictGet_eq_none_of_not_mem
    rw [applyMatches_keys, dictKeys_initDict]
    decide
  · intro p hp
    have hnd : (sections.map Prod.fst).Nodup := (hperm.nodup_iff).mpr sectionKeys_nodup
    have hstr : ∀ q ∈ sections, strip q.1 = q.1 := fun q hq => strip_sectionKey q.1 (hkeys q hq)
    have hcont : dictContains initDict p.1 = true := dictContains_initDict p.1 (hkeys p hp)
    have hlast := lastContent_of_unique sections p.1 p.2 (by rwa [Prod.mk.eta]) hnd hstr
    constructor
    · rw [applyMatches_get sections initDict p.1 hcont, hlast]
    · intro c hcmem hcns
      exact strip_ne_nil p.2 c hcmem hcns

theorem c1_sectionize_wellformed_witness :
    dictKeys (parse_response_to_json (mkText c1ExampleSections)) = sectionKeys ∧
    dictGet (parse_response_to_json (mkText c1ExampleSections)) errKey = none ∧
    ∀ p ∈ c1ExampleSections,
      dictGet (parse_response_to_json (mkText c1ExampleSections)) p.1 = some (strip p.2) ∧
      (∀ c ∈ p.2, isSpc c = false → strip p.2 ≠ []) :=
  c1_sectionize_wellformed c1ExampleSections (by decide) (by decide)

/-- C2 counterexample: the text consisting of a single bold header named
Foo contains none of the seven fixed section names, yet the parser
returns no parsing-failed marker for it, because the regex matches any
bold header and the marker is installed only when the regex finds no
match at all. -/
theorem c2_zero_recognized_headers_counterexample :
    (∀ k ∈ sectionKeys, hasSubstr (("**Foo:** bar").data) k = false) ∧
    dictGet (parse_response_to_json (("**Foo:** bar").data)) errKey = none := by
  decide

/-- C2 (amended): for every input on which the regex finds no match at
all (no bold-header pattern of the form double asterisks, text, colon,
double asterisks occurs), the parser returns the seven fixed keys all
empty plus the parsing-failed marker under the error key; the function
is total, so it never raises.  A text can contain zero of the seven
recognised names and still produce matches (any bold header matches),
in which case no marker is installed. -/
theorem c2_parse_failure_marker (s : Str) (h : findallSections s = []) :
    parse_response_to_json s = initDict ++ [(errKey, parseFailedMsg)] := by
  rw [parse_eq_marker s h]
  decide

theorem c2_parse_failure_marker_witness :
    parse_response_to_json (("no headers here").data) = initDict ++ [(errKey, parseFailedMsg)] :=
  c2_parse_failure_marker (("no headers here").data) (by decide)

/-- C3 counterexample: on the empty raw text the parser finds no match,
so its result carries the seven fixed keys plus the error marker key:
the key set is not always exactly the seven names. -/
theorem c3_key_set_counterexample :
    dictKeys (parse_response_to_json []) = sectionKeys ++ [errKey] ∧
    dictKeys (parse_response_to_json []) ≠ sectionKeys := by
  decide

/-- C3 (amended): for every input the key set of the parser result is
exactly the seven fixed names when the regex finds at least one match,
and the seven names followed by the error marker key when it finds none;
unexpected headers in the source text are never captured as extra
keys. -/
theorem c3_key_set_invariant (s : Str) :
    dictKeys (parse_response_to_json s) =
      if findallSections s = [] then sectionKeys ++ [errKey] else sectionKeys := by
  by_cases h : findallSections s = []
  · rw [if_pos h, parse_eq_marker s h]
    decide
  · rw [if_neg h, parse_eq_fold s h, applyMatches_keys]
    exact dictKeys_initDict

/-- C10: whenever a recognised section header has at least one match in
the raw text, the value returned for that key is the trimmed content of
the last such match: later matches for the same recognised header
overwrite earlier ones. -/
theorem c10_last_occurrence_wins (s : Str) (k : Str) (hk : k ∈ sectionKeys) (v : Str)
    (hv : lastContent k (findallSections s) = some v) :
    dictGet (parse_response_to_json s) k = some v := by
  have hne : findallSections s ≠ [] := by
    intro h
    rw [h] at hv
    simp [lastContent] at hv
  rw [parse_eq_fold s hne, applyMatches_get _ _ _ (dictContains_initDict k hk), hv]

theorem c10_last_occurrence_wins_witness :
    dictGet (parse_response_to_json (("**Wound Summary:**A**Wound Summary:** B").data))
      (("Wound Summary").data) = some (("B").data) :=
  c10_last_occurrence_wins (("**Wound Summary:**A**Wound Summary:** B").data)
    (("Wound Summary").data) (by decide) (("B").data) (by decide)

/-! ### Claims about the workflow coordinator and the clients -/

/-- C4: when either fallible step of analyze_wound_with_image raises
(image encoding or the provider call), the coordinator resets both cache
slots to None and returns success False with the exception message
wrapped as a workflow error; when both steps succeed it caches the raw
analysis text and the formatted assessment and returns success True
carrying the timestamp, the model name, the formatted assessment and the
sectioned response. -/
theorem c4_analyze_state_transitions (model now : Str) (st : FacadeState)
    (flags : Str → Bool) (oi : Str) :
    (∀ e gia, analyze_wound_with_image model now st flags oi (.error e) gia =
      (⟨none, none⟩, ⟨false, none, none, none, none, some (workflowError e)⟩)) ∧
    (∀ img e, analyze_wound_with_image model now st flags oi (.ok img) (.error e) =
      (⟨none, none⟩, ⟨false, none, none, none, none, some (workflowError e)⟩)) ∧
    (∀ img raw, analyze_wound_with_image model now st flags oi (.ok img) (.ok raw) =
      (⟨some raw, some (format_assessment_data now flags oi)⟩,
        ⟨true, some now, some model, some (format_assessment_data now flags oi),
          some (parse_response_to_json raw), none⟩)) :=
  ⟨fun _ _ => rfl, fun _ _ => rfl, fun _ _ => rfl⟩

/-- C5: with no cached analysis (the Idle state), both follow-up
operations return the precondition failure telling the caller to run
analyze_wound_with_image first, and the provider client is invoked zero
times; the guard never dereferences the absent cache, the functions are
total. -/
theorem c5_followups_require_analysis (model now : Str) (st : FacadeState)
    (h : st.last_analysis = none) (reason : Str)
    (er : ExpandPlanResult) (rr : RevisedProductsResult) :
    expand_last_treatment_plan model now st er =
      (⟨false, none, none, none, some mustAnalyzeFirstMsg, none⟩, 0) ∧
    revise_last_products model now st reason rr =
      (⟨false, none, none, none, some mustAnalyzeFirstMsg, none⟩, 0) := by
  have hf : isFalsy st.last_analysis = true := by rw [h]; rfl
  constructor
  · unfold expand_last_treatment_plan
    rw [if_pos hf]
  · unfold revise_last_products
    rw [if_pos hf]

theorem c5_followups_require_analysis_witness :
    expand_last_treatment_plan (("gpt-4o").data) (("t0").data) ⟨none, none⟩
        ⟨true, none, none, none⟩ =
      (⟨false, none, none, none, some mustAnalyzeFirstMsg, none⟩, 0) ∧
    revise_last_products (("gpt-4o").data) (("t0").data) ⟨none, none⟩ (("Too Costly").data)
        ⟨true, none, none, none⟩ =
      (⟨false, none, none, none, some mustAnalyzeFirstMsg, none⟩, 0) :=
  c5_followups_require_analysis (("gpt-4o").data) (("t0").data) ⟨none, none⟩ rfl
    (("Too Costly").data) ⟨true, none, none, none⟩ ⟨true, none, none, none⟩

/-- C6: for a history of fewer than two records, calculate_healing_progress
returns success True with json_response the dictionary mapping
healing_progress_percentage to 0 and pdf_path present with value None,
and neither the document builder nor the provider client runs (both
instrumentation counters are zero). -/
theorem c6_short_history_zero_progress (model now pid : Str)
    (history_records : List AssessmentRecord) (h : history_records.length < 2)
    (pdfResult : Except Str Str) (clientResult : HealingProgressResult) :
    calculate_healing_progress model now pid history_records pdfResult clientResult =
      (⟨true, some now, some model, some none,
        some (JsonVal.obj [(healing_progress_percentage_key, JsonVal.num 0)]), none⟩, 0, 0) := by
  unfold calculate_healing_progress
  rw [if_pos h]

theorem c6_short_history_zero_progress_witness :
    calculate_healing_progress (("gpt-4o").data) (("t0").data) (("patient1").data) []
        (.ok (("p.pdf").data)) ⟨true, none, none⟩ =
      (⟨true, some (("t0").data), some (("gpt-4o").data), some none,
        some (JsonVal.obj [(healing_progress_percentage_key, JsonVal.num 0)]), none⟩, 0, 0) :=
  c6_short_history_zero_progress (("gpt-4o").data) (("t0").data) (("patient1").data) []
    (by decide) (.ok (("p.pdf").data)) ⟨true, none, none⟩

theorem re_search_between_some (pre post s g : Str)
    (h : re_search_between pre post s = some g) :
    ∃ a z, s = a ++ pre ++ g ++ post ++ z := by
  unfold re_search_between at h
  split at h
  · exact absurd h (by simp)
  · rename_i a b e1
    split at h
    · exact absurd h (by simp)
    · rename_i g2 c e2
      simp only [Option.some.injEq] at h
      subst h
      have s1 := splitAtFirst_split _ _ _ _ e1
      have p1 := splitAtFirst_holds _ _ _ _ e1
      have s2 := splitAtFirst_split _ _ _ _ e2
      have p2 := splitAtFirst_holds _ _ _ _ e2
      rw [ List.isPrefixOf_iff_prefix] at p1 p2
      obtain ⟨t, ht⟩ := p1
      obtain ⟨z, hz⟩ := p2
      refine ⟨a, z, ?_⟩
      have hdrop : b.drop pre.length = t := by
        rw [← ht, List.drop_left]
      rw [hdrop] at s2
      rw [s1, ← ht, s2, ← hz]
      simp

/-- C7: when the prior raw analysis contains no Treatment Plan header
followed by a Recommended Products header, both the OpenAI and the
Gemini client expand_treatment_plan return a section-not-found failure
naming the Treatment Plan section, and the provider is invoked zero
times. -/
theorem c7_expand_missing_section (analysis : Str)
    (h : ∀ a g z : Str, analysis ≠ a ++ tpDelim ++ g ++ rpDelim ++ z)
    (api : Except Str Str) (decodeJson : Str → Option JsonVal) :
    openai_expand_treatment_plan analysis api decodeJson =
      (⟨false, some openaiExpandMissingMsg, none, none⟩, 0) ∧
    gemini_expand_treatment_plan analysis api decodeJson =
      (⟨false, some geminiExpandMissingMsg, none, none⟩, 0) := by
  have hnone : re_search_between tpDelim rpDelim analysis = none := by
    cases hr : re_search_between tpDelim rpDelim analysis with
    | none => rfl
    | some g =>
      obtain ⟨a, z, hs⟩ := re_search_between_some _ _ _ _ hr
      exact absurd hs (h a g z)
  constructor
  · unfold openai_expand_treatment_plan
    rw [hnone]
  · unfold gemini_expand_treatment_plan
    rw [hnone]

theorem c7_expand_missing_section_witness :
    openai_expand_treatment_plan (("nothing").data) (.ok (("x").data)) (fun _ => none) =
      (⟨false, some openaiExpandMissingMsg, none, none⟩, 0) ∧
    gemini_expand_treatment_plan (("nothing").data) (.ok (("x").data)) (fun _ => none) =
      (⟨false, some geminiExpandMissingMsg, none, none⟩, 0) :=
  c7_expand_missing_section (("nothing").data)
    (by
      intro a g z hs
      have hlen := congrArg List.length hs
      simp [tpDelim, rpDelim] at hlen
      omega)
    (.ok (("x").data)) (fun _ => none)

/-- C8 counterexample: the reason string Budget is outside the
enumerated set, and in the OpenAI client it selects the bare default
instruction, which differs from the instruction selected for Other; so
it is not the case that every provider client maps an unrecognised
reason to the same instruction as Other. -/
theorem c8_fallback_counterexample :
    (("Budget").data ∉ validReasons) ∧
    openai_revision_instruction (("Budget").data) ≠
      openai_revision_instruction (("Other").data) := by
  decide

/-- C8 (amended): in all three provider clients the instruction for Too
Costly differs from the instruction for Patient Wont Tolerate, and every
reason outside the enumerated set selects a fixed fallback instruction
without raising; in the Gemini client that fallback coincides with the
Other instruction, while in the OpenAI and Grok clients it is the bare
default string, which differs from their Other instruction. -/
theorem c8_revision_instructions (r : Str) (h : r ∉ validReasons) :
    openai_revision_instruction (("Too Costly").data) ≠ openai_revision_instruction pwtReason ∧
    gemini_revision_instruction (("Too Costly").data) ≠ gemini_revision_instruction pwtReason ∧
    grok_revision_instruction (("Too Costly").data) ≠ grok_revision_instruction pwtReason ∧
    gemini_revision_instruction r = gemini_revision_instruction (("Other").data) ∧
    openai_revision_instruction r = ("Provide alternative product recommendations.").data ∧
    grok_revision_instruction r = ("Provide alternative product recommendations.").data ∧
    openai_revision_instruction (("Other").data) ≠
      ("Provide alternative product recommendations.").data ∧
    grok_revision_instruction (("Other").data) ≠
      ("Provide alternative product recommendations.").data := by
  have h1 : r ≠ pwtReason := by
    intro he
    exact h (by rw [he]; simp [validReasons])
  have h2 : r ≠ ("Too Costly").data := by
    intro he
    exact h (by rw [he]; simp [validReasons])
  have h3 : r ≠ ("Products Unavailable").data := by
    intro he
    exact h (by rw [he]; simp [validReasons])
  have h4 : r ≠ ("Other").data := by
    intro he
    exact h (by rw [he]; simp [validReasons])
  refine ⟨by decide, by decide, by decide, ?_, ?_, ?_, by decide, by decide⟩
  · have hg : gemini_revision_instruction r =
        ("Provide alternative product recommendations with different mechanisms of action or formulations.").data := by
      unfold gemini_revision_instruction
      rw [if_neg h1, if_neg h2, if_neg h3]
    have hgo : gemini_revision_instruction (("Other").data) =
        ("Provide alternative product recommendations with different mechanisms of action or formulations.").data := by
      decide
    rw [hg, hgo]
  · unfold openai_revision_instruction
    rw [if_neg h1, if_neg h2, if_neg h3, if_neg h4]
  · unfold grok_revision_instruction
    rw [if_neg h1, if_neg h2, if_neg h3, if_neg h4]

theorem c8_revision_instructions_witness :
    openai_revision_instruction (("Too Costly").data) ≠ openai_revision_instruction pwtReason ∧
    gemini_revision_instruction (("Too Costly").data) ≠ gemini_revision_instruction pwtReason ∧
    grok_revision_instruction (("Too Costly").data) ≠ grok_revision_instruction pwtReason ∧
    gemini_revision_instruction (("Budget").data) =
      gemini_revision_instruction (("Other").data) ∧
    openai_revision_instruction (("Budget").data) =
      ("Provide alternative product recommendations.").data ∧
    grok_revision_instruction (("Budget").data) =
      ("Provide alternative product recommendations.").data ∧
    openai_revision_instruction (("Other").data) ≠
      ("Provide alternative product recommendations.").data ∧
    grok_revision_instruction (("Other").data) ≠
      ("Provide alternative product recommendations.").data :=
  c8_revision_instructions (("Budget").data) (by decide)

/-! ### Order lemmas for the document builder -/

theorem strLe_total : ∀ a b : Str, strLe a b = true ∨ strLe b a = true := by
  intro a
  induction a with
  | nil => intro b; left; rfl
  | cons x xs ih =>
    intro b
    cases b with
    | nil => right; rfl
    | cons y ys =>
      by_cases hxy : x.toNat < y.toNat
      · left; simp [strLe, hxy]
      · by_cases hyx : y.toNat < x.toNat
        · right; simp [strLe, hyx]
        · rcases ih ys with h | h
          · left; simp [strLe, hxy, hyx, h]
          · right; simp [strLe, hxy, hyx, h]

theorem strLe_trans : ∀ a b c : Str, strLe a b = true → strLe b c = true → strLe a c = true
  | [], _, _, _, _ => rfl
  | _ :: _, [], _, hab, _ => by simp [strLe] at hab
  | _ :: _, _ :: _, [], _, hbc => by simp [strLe] at hbc
  | x :: xs, y :: ys, z :: zs, hab, hbc => by
    simp only [strLe] at hab hbc ⊢
    by_cases h1 : x.toNat < y.toNat
    · by_cases h2 : y.toNat < z.toNat
      · rw [if_pos (by omega)]
      · by_cases h3 : z.toNat < y.toNat
        · rw [if_neg h2, if_pos h3] at hbc
          exact absurd hbc (by simp)
        · rw [if_pos (by omega)]
    · by_cases h4 : y.toNat < x.toNat
      · rw [if_neg h1, if_pos h4] at hab
        exact absurd hab (by simp)
      · by_cases h2 : y.toNat < z.toNat
        · rw [if_pos (by omega)]
        · by_cases h3 : z.toNat < y.toNat
          · rw [if_neg h2, if_pos h3] at hbc
            exact absurd hbc (by simp)
          · rw [if_neg h1, if_neg h4] at hab
            rw [if_neg h2, if_neg h3] at hbc
            rw [if_neg (by omega), if_neg (by omega)]
            exact strLe_trans xs ys zs hab hbc

theorem strLe_antisymm : ∀ a b : Str, strLe a b = true → strLe b a = true → a = b
  | [], [], _, _ => rfl
  | [], _ :: _, _, hba => by simp [strLe] at hba
  | _ :: _, [], hab, _ => by simp [strLe] at hab
  | x :: xs, y :: ys, hab, hba => by
    simp only [strLe] at hab hba
    by_cases h1 : x.toNat < y.toNat
    · rw [if_neg (by omega), if_pos h1] at hba
      exact absurd hba (by simp)
    · by_cases h2 : y.toNat < x.toNat
      · rw [if_neg h1, if_pos h2] at hab
        exact absurd hab (by simp)
      · rw [if_neg h1, if_neg h2] at hab
        rw [if_neg h2, if_neg h1] at hba
        have hn : x.toNat = y.toNat := by omega
        have hx : x = y := Char.ext (UInt32.toNat.inj hn)
        rw [hx, strLe_antisymm xs ys hab hba]

theorem create_pdf_pages (rs : List AssessmentRecord) (pid : Str) (h : rs ≠ []) :
    ∃ path, create_healing_history_pdf rs pid = Except.ok
      (path, (rs.mergeSort recLe).enum.map (mkPage (rs.mergeSort recLe).length)) := by
  cases rs with
  | nil => exact absurd rfl h
  | cons a l => exact ⟨_, rfl⟩

theorem pages_map_date (l : List AssessmentRecord) (n : Nat) :
    (l.enum.map (mkPage n)).map (fun p => p.assessment_date) =
      l.map (fun r => r.assessment_date) := by
  rw [List.map_map]
  have h1 : ((fun p : PdfPage => p.assessment_date) ∘ mkPage n) =
      ((fun r : AssessmentRecord => r.assessment_date) ∘ Prod.snd) := rfl
  rw [h1, ← List.map_map, List.enum_map_snd]

theorem mergeSort_dates_sorted (l : List AssessmentRecord) :
    List.Pairwise (fun a b : Str => strLe a b = true)
      ((l.mergeSort recLe).map (fun r => r.assessment_date)) := by
  have hs : List.Pairwise (fun a b : AssessmentRecord => recLe a b = true)
      (l.mergeSort recLe) :=
    @List.sorted_mergeSort AssessmentRecord recLe
      (fun a b c hab hbc => strLe_trans _ _ _ hab hbc)
      (fun a b => by
        rw [Bool.or_eq_true]
        exact strLe_total a.assessment_date b.assessment_date) l
  exact hs.map _ (fun a b hab => hab)

theorem mergeSort_two {α : Type} (a b : α) (le : α → α → Bool) :
    List.mergeSort [a, b] le = if le a b then [a, b] else [b, a] := by
  rw [List.mergeSort]
  simp only [List.splitInTwo_fst, List.splitInTwo_snd]
  norm_num
  by_cases h : le a b = true
  · simp [List.merge, h]
  · simp [List.merge, h]

/-- C9: for every history of at least two records the document builder
succeeds and renders one page per record with the page dates sorted
ascending by the Python string order on assessment_date; the multiset of
rendered dates is that of the input, and any permutation of the input
yields the same date sequence.  The concrete two-record example dated
2025-10-11 then 2025-10-01 is settled in the witness: its first rendered
page is the 2025-10-01 record. -/
theorem c9_pdf_sorted (rs : List AssessmentRecord) (pid : Str) (h2 : 2 ≤ rs.length) :
    ∃ path pages, create_healing_history_pdf rs pid = Except.ok (path, pages) ∧
      pages.length = rs.length ∧
      List.Pairwise (fun a b : Str => strLe a b = true)
        (pages.map (fun p => p.assessment_date)) ∧
      List.Perm (pages.map (fun p => p.assessment_date))
        (rs.map (fun r => r.assessment_date)) ∧
      ∀ other : List AssessmentRecord, List.Perm other rs →
        ∃ path2 pages2, create_healing_history_pdf other pid = Except.ok (path2, pages2) ∧
          pages2.map (fun p => p.assessment_date) = pages.map (fun p => p.assessment_date) := by
  have hne : rs ≠ [] := by
    intro h
    rw [h] at h2
    simp at h2
  obtain ⟨path, hok⟩ := create_pdf_pages rs pid hne
  refine ⟨path, _, hok, ?_, ?_, ?_, ?_⟩
  · rw [List.length_map, List.enum_length, List.length_mergeSort]
  · rw [pages_map_date]
    exact mergeSort_dates_sorted rs
  · rw [pages_map_date]
    exact (List.mergeSort_perm rs recLe).map _
  · intro other hperm
    have hone : other ≠ [] := by
      intro h0
      rw [h0] at hperm
      have := hperm.length_eq
      rw [← this] at h2
      simp at h2
    obtain ⟨path2, hok2⟩ := create_pdf_pages other pid hone
    refine ⟨path2, _, hok2, ?_⟩
    rw [pages_map_date, pages_map_date]
    refine @List.eq_of_perm_of_sorted Str (fun a b => strLe a b = true)
      ⟨fun a b ha hb => strLe_antisymm a b ha hb⟩ _ _ ?_ ?_ ?_
    · exact ((List.mergeSort_perm other recLe).map _).trans
        ((hperm.map _).trans ((List.mergeSort_perm rs recLe).map _).symm)
    · exact mergeSort_dates_sorted other
    · exact mergeSort_dates_sorted rs

theorem c9_pdf_sorted_witness :
    (∃ path pages, create_healing_history_pdf
        [⟨("wound_2.png").data, ("2025-10-11").data, []⟩,
         ⟨("wound_1.png").data, ("2025-10-01").data, []⟩] (("patient1").data) =
        Except.ok (path, pages) ∧
      pages.length = ([⟨("wound_2.png").data, ("2025-10-11").data, []⟩,
         ⟨("wound_1.png").data, ("2025-10-01").data, []⟩] : List AssessmentRecord).length ∧
      List.Pairwise (fun a b : Str => strLe a b = true)
        (pages.map (fun p => p.assessment_date)) ∧
      List.Perm (pages.map (fun p => p.assessment_date))
        (([⟨("wound_2.png").data, ("2025-10-11").data, []⟩,
           ⟨("wound_1.png").data, ("2025-10-01").data, []⟩] : List AssessmentRecord).map
          (fun r => r.assessment_date)) ∧
      ∀ other : List AssessmentRecord,
        List.Perm other [⟨("wound_2.png").data, ("2025-10-11").data, []⟩,
          ⟨("wound_1.png").data, ("2025-10-01").data, []⟩] →
        ∃ path2 pages2,
          create_healing_history_pdf other (("patient1").data) = Except.ok (path2, pages2) ∧
          pages2.map (fun p => p.assessment_date) = pages.map (fun p => p.assessment_date)) ∧
    ∀ path pages, create_healing_history_pdf
        [⟨("wound_2.png").data, ("2025-10-11").data, []⟩,
         ⟨("wound_1.png").data, ("2025-10-01").data, []⟩] (("patient1").data) =
        Except.ok (path, pages) →
      pages.map (fun p => p.assessment_date) =
        [("2025-10-01").data, ("2025-10-11").data] := by
  constructor
  · exact c9_pdf_sorted
      [⟨("wound_2.png").data, ("2025-10-11").data, []⟩,
       ⟨("wound_1.png").data, ("2025-10-01").data, []⟩] (("patient1").data) (by decide)
  · intro path pages h
    have hms : ([⟨("wound_2.png").data, ("2025-10-11").data, []⟩,
        ⟨("wound_1.png").data, ("2025-10-01").data, []⟩] : List AssessmentRecord).mergeSort
          recLe =
        [⟨("wound_1.png").data, ("2025-10-01").data, []⟩,
         ⟨("wound_2.png").data, ("2025-10-11").data, []⟩] := by
      rw [mergeSort_two]
      rw [if_neg (by decide)]
    obtain ⟨p0, hok0⟩ := create_pdf_pages
      [⟨("wound_2.png").data, ("2025-10-11").data, []⟩,
       ⟨("wound_1.png").data, ("2025-10-01").data, []⟩] (("patient1").data)
      (List.cons_ne_nil _ _)
    rw [hms] at hok0
    rw [hok0] at h
    simp only [Except.ok.injEq, Prod.mk.injEq] at h
    rw [← h.2, pages_map_date]
    rfl
